import Mathlib

/-!
Verification of the RAPT backend analysis engine
(`src/services/analysis_engine.py`) against its specification.

The engine is embedded shallowly: text is a `List Char`, the Python
regular-expression searches (always of the shape `\b<escaped literal>\b`)
are modelled by an explicit per-position word-boundary search, floats are
modelled by `ℚ` (every intermediate value of the scorer is a multiple of
1/2, hence exactly representable as a double, so `ℚ` arithmetic agrees
with the Python float arithmetic), and Python's builtin `round`
(round-half-to-even on floats) is `pythonRound`.
-/

namespace RAPT

/-! ### Model of the regular-expression primitives

The engine only ever calls `re.search(rf"\b{re.escape(kw)}\b", text)`,
optionally with `re.IGNORECASE`.  `re.escape` makes every character of
`kw` a literal, so the pattern matches iff `kw` occurs literally at some
position with a `\b` word boundary on each side.  `\b` matches between a
word character (`[A-Za-z0-9_]` for the ASCII texts modelled here) and a
non-word character, counting the ends of the string as non-word. -/

def isWordChar (c : Char) : Bool := c.isAlphanum || c == '_'

/-- Character of `t` at index `p`, with a (non-word) space past the end. -/
def charAt (t : List Char) (p : Nat) : Char := t.getD p ' '

/-- Whether position `p` of `t` holds a word character (out of range: no). -/
def wordAt (t : List Char) (p : Nat) : Bool :=
  decide (p < t.length) && isWordChar (charAt t p)

/-- `\b` at gap position `p` (between index `p - 1` and index `p`). -/
def boundaryAt (t : List Char) (p : Nat) : Bool :=
  (if p = 0 then false else wordAt t (p - 1)) != wordAt t p

/-- The literal `L` occurs in `t` starting at index `p`. -/
def litAt (t : List Char) (p : Nat) (L : List Char) : Bool :=
  ((t.drop p).take L.length) == L

/-- `re.search(rf"\b{re.escape L}\b", t)` as a Boolean: some start
position (0 .. t.length) carries boundary, literal, boundary. -/
def reSearchWW (L t : List Char) : Bool :=
  (List.range (t.length + 1)).any fun p =>
    boundaryAt t p && litAt t p L && boundaryAt t (p + L.length)

/-- `str.lower()` on the character list (ASCII model). -/
def lowerL (t : List Char) : List Char := t.map Char.toLower

/-- `str.lower()` on a `String`. -/
def strLower (s : String) : String := ⟨lowerL s.toList⟩

/-- `str.capitalize()`: first character upper-cased, the rest lower-cased. -/
def pyCapitalize (s : String) : String :=
  match s.toList with
  | [] => ""
  | c :: rest => ⟨c.toUpper :: rest.map Char.toLower⟩

/-- The whitespace recognised by Python's `str.split()` (ASCII part). -/
def pyIsSpace (c : Char) : Bool :=
  c == ' ' || c == '\t' || c == '\n' || c == '\r' ||
  c == Char.ofNat 11 || c == Char.ofNat 12

/-- Helper for `pySplit`: `acc` holds the reversed current word. -/
def splitAux : List Char → List Char → List (List Char)
  | [], acc => if acc.isEmpty then [] else [acc.reverse]
  | c :: rest, acc =>
    if pyIsSpace c then
      if acc.isEmpty then splitAux rest [] else acc.reverse :: splitAux rest []
    else splitAux rest (c :: acc)

/-- Python `str.split()`: split on runs of whitespace, dropping empties. -/
def pySplit (t : List Char) : List (List Char) := splitAux t []

/-- `" ".join(raw_text.split())` — the orchestrator's text cleaning. -/
def cleanText (raw_text : List Char) : List Char :=
  List.intercalate [' '] (pySplit raw_text)

/-! ### Configuration data (`SKILL_GROUPS`, `SECTION_SYNONYMS`,
`CORE_INDUSTRY_SKILLS`), verbatim from the source. -/

def SKILL_GROUPS : List (String × List String) :=
  [("programming", ["python", "java", "c++", "javascript", "golang", "ruby", "typescript"]),
   ("frontend", ["react", "html", "css", "tailwind", "nextjs", "vue"]),
   ("backend", ["fastapi", "node", "django", "flask", "spring boot"]),
   ("ml", ["machine learning", "tensorflow", "pytorch", "scikit-learn", "nlp"]),
   ("database", ["postgresql", "mysql", "mongodb", "supabase", "redis", "oracle"])]

def SECTION_SYNONYMS : List (String × List String) :=
  [("education", ["education", "academic", "university", "schooling", "qualifications"]),
   ("projects", ["projects", "personal work", "portfolio", "open source"]),
   ("experience", ["experience", "work history", "employment", "internship", "professional background"]),
   ("skills", ["skills", "technical stack", "competencies", "tools", "technologies"])]

def CORE_INDUSTRY_SKILLS : List String :=
  ["python", "react", "sql", "git", "aws", "docker", "api"]

/-! ### Section detection and skill extraction -/

/-- `detect_sections`: the text is lower-cased once, then each section is
present iff any synonym matches `\b..\b`.  The association list keeps the
dictionary's (insertion-ordered) iteration order. -/
def detect_sections (text : List Char) : List (String × Bool) :=
  SECTION_SYNONYMS.map fun entry =>
    (entry.1, entry.2.any fun kw => reSearchWW kw.toList (lowerL text))

/-- All skill keywords in taxonomy iteration order. -/
def allSkillKeywords : List String := (SKILL_GROUPS.map Prod.snd).flatten

/-- One keyword test of `extract_skills`:
`re.search(rf"\b{re.escape(skill)}\b", text, re.IGNORECASE)`; for the
ASCII texts modelled, `IGNORECASE` matching of a literal is literal
matching of the two lower-cased sides. -/
def skillHit (text : List Char) (skill : String) : Bool :=
  reSearchWW (lowerL skill.toList) (lowerL text)

/-- `extract_skills`: the set of matched keywords, lower-cased.  The
Python function accumulates into a `set` and returns `list(found)`; the
model keeps the matched keywords deduplicated, so membership and size
agree with the set. -/
def extract_skills (text : List Char) : List String :=
  ((allSkillKeywords.filter (skillHit text)).map strLower).dedup

/-! ### Scoring -/

/-- `SECTIONSYNONYMS_SAFE()` just returns `SECTION_SYNONYMS`. -/
def SECTIONSYNONYMS_SAFE : List (String × List String) := SECTION_SYNONYMS

/-- Python's builtin `round` on the exact value: round half to even. -/
def pythonRound (q : ℚ) : ℤ :=
  if q - ⌊q⌋ < 1/2 then ⌊q⌋
  else if 1/2 < q - ⌊q⌋ then ⌊q⌋ + 1
  else if 2 ∣ ⌊q⌋ then ⌊q⌋ else ⌊q⌋ + 1

/-- `calculate_weighted_score`.  Every float the Python code builds here
is a multiple of 1/2, hence exact, so the `ℚ` arithmetic is faithful. -/
def calculate_weighted_score (sections : List (String × Bool))
    (skills : List String) (word_count : Nat) : ℤ :=
  let present_sections : Nat := (sections.filter fun s => s.2).length
  let score1 : ℚ := 0 + ((present_sections : ℚ) / (SECTIONSYNONYMS_SAFE.length : ℚ)) * 30
  let skill_count : Nat := skills.length
  let score2 : ℚ := if 0 < skill_count then score1 + min ((skill_count : ℚ) * 5) 50 else score1
  let score3 : ℚ :=
    if 300 ≤ word_count ∧ word_count ≤ 800 then score2 + 20
    else if 0 < word_count then score2 + 10 else score2
  pythonRound score3

/-! ### Feedback and the full analysis -/

structure Feedback where
  strengths : List String
  improvements : List String
  ats_tips : List String

structure AnalysisDetails where
  sections_found : List String
  skills_detected : List String
  missing_core_skills : List String

structure AnalysisResult where
  status : String
  score : ℤ
  word_count : Nat
  details : AnalysisDetails
  feedback : Feedback
  engine_version : String

/-- `f"Missing '{section.capitalize()}' section."` -/
def missingSectionMsg (section_name : String) : String :=
  "Missing '" ++ pyCapitalize section_name ++ "' section."

/-- `f"Consider adding core skills: {', '.join(missing_skills[:3])}"`
(note: the source string has no trailing period). -/
def coreSkillsMsg (missing_skills : List String) : String :=
  "Consider adding core skills: " ++ String.intercalate ", " (missing_skills.take 3)

/-- `run_full_analysis`, line for line: clean the text, count words,
detect sections, extract skills, filter the core-skill gaps, score, and
synthesise feedback. -/
def run_full_analysis (raw_text : List Char) : AnalysisResult :=
  let clean_text := cleanText raw_text
  let word_count := (pySplit clean_text).length
  let sections := detect_sections clean_text
  let found_skills := extract_skills clean_text
  let missing_skills := CORE_INDUSTRY_SKILLS.filter fun s => decide (s ∉ found_skills)
  let ats_score := calculate_weighted_score sections found_skills word_count
  let strengths : List String :=
    if 80 ≤ ats_score then ["Excellent section structure and keyword density."]
    else if 50 ≤ ats_score then ["Good start, but needs more specific technical keywords."]
    else []
  let improvements : List String :=
    ((sections.filter fun s => !s.2).map fun s => missingSectionMsg s.1) ++
      (if missing_skills.isEmpty then [] else [coreSkillsMsg missing_skills])
  { status := "success"
    score := ats_score
    word_count := word_count
    details :=
      { sections_found := (sections.filter fun s => s.2).map Prod.fst
        skills_detected := found_skills
        missing_core_skills := missing_skills }
    feedback :=
      { strengths := strengths
        improvements := improvements
        ats_tips :=
          ["Use standard fonts and avoid complex tables or graphics.",
           "Start bullet points with strong action verbs like 'Developed', 'Built', 'Designed'."] }
    engine_version := "2.1.0" }

structure RaptFeedbackJson where
  feedback : Feedback
  sections_found : List String
  word_count : Nat

structure RaptRecord where
  score : ℤ
  skills : List String
  missing_skills : List String
  feedback_json : RaptFeedbackJson
  model_version : String

/-- `run_analysis_for_rapt`: the adapter over `run_full_analysis`. -/
def run_analysis_for_rapt (raw_text : List Char) : RaptRecord :=
  let result := run_full_analysis raw_text
  { score := result.score
    skills := result.details.skills_detected
    missing_skills := result.details.missing_core_skills
    feedback_json :=
      { feedback := result.feedback
        sections_found := result.details.sections_found
        word_count := result.word_count }
    model_version := result.engine_version }

/-! ### The specification's whole-word notion

Stated from the spec's words (glossary: "a match bounded by non-word
character boundaries on both sides"), to be compared with the regex the
code actually runs. -/

/-- The literal `L` occurs in `T` at index `p`. -/
def occursAt (T L : List Char) (p : Nat) : Prop := (T.drop p).take L.length = L

/-- Spec-side whole-word occurrence of the (lower-case) keyword `L` in
text `t`, case-insensitive: `L` occurs at some position whose two
neighbouring characters (when they exist) are non-word characters. -/
def wholeWordMatch (L t : List Char) : Prop :=
  ∃ p : Nat, occursAt (lowerL t) L p ∧
    (p = 0 ∨ isWordChar (charAt (lowerL t) (p - 1)) = false) ∧
    (p + L.length = t.length ∨ isWordChar (charAt (lowerL t) (p + L.length)) = false)

/-! ### Properties of `pythonRound` -/

lemma pythonRound_intCast (n : ℤ) : pythonRound (n : ℚ) = n := by
  unfold pythonRound
  rw [Int.floor_intCast, sub_self]
  norm_num

lemma pythonRound_zero : pythonRound 0 = 0 := by
  simpa using pythonRound_intCast 0

lemma floor_le_pythonRound (q : ℚ) : ⌊q⌋ ≤ pythonRound q := by
  unfold pythonRound
  split_ifs <;> omega

lemma pythonRound_le_floor_add_one (q : ℚ) : pythonRound q ≤ ⌊q⌋ + 1 := by
  unfold pythonRound
  split_ifs <;> omega

lemma pythonRound_mono {a b : ℚ} (hab : a ≤ b) : pythonRound a ≤ pythonRound b := by
  rcases eq_or_lt_of_le (Int.floor_le_floor hab) with he | hlt
  · unfold pythonRound
    rw [← he]
    split_ifs <;> first | omega | (exfalso; linarith)
  · have h1 := pythonRound_le_floor_add_one a
    have h2 := floor_le_pythonRound b
    omega

lemma pythonRound_le_of_le {q : ℚ} {n : ℤ} (h : q ≤ (n : ℚ)) : pythonRound q ≤ n := by
  have := pythonRound_mono h
  rwa [pythonRound_intCast] at this

/-! ### Bounds on the scorer -/

lemma calculate_weighted_score_le_100 (sections : List (String × Bool))
    (skills : List String) (word_count : Nat)
    (h : (sections.filter fun s => s.2).length ≤ 4) :
    calculate_weighted_score sections skills word_count ≤ 100 := by
  simp only [calculate_weighted_score, SECTIONSYNONYMS_SAFE, SECTION_SYNONYMS]
  apply pythonRound_le_of_le
  have hp : (((sections.filter fun s => s.2).length : ℚ)) ≤ 4 := by exact_mod_cast h
  have hmin : min ((skills.length : ℚ) * 5) 50 ≤ 50 := min_le_right _ _
  push_cast
  split_ifs <;> norm_num <;> linarith

lemma detect_sections_length (text : List Char) :
    (detect_sections text).length = 4 := by
  simp [detect_sections, SECTION_SYNONYMS]

lemma score_le_100 (raw_text : List Char) : (run_full_analysis raw_text).score ≤ 100 := by
  show calculate_weighted_score (detect_sections (cleanText raw_text))
    (extract_skills (cleanText raw_text)) ((pySplit (cleanText raw_text)).length) ≤ 100
  apply calculate_weighted_score_le_100
  calc ((detect_sections (cleanText raw_text)).filter fun s => s.2).length
      ≤ (detect_sections (cleanText raw_text)).length := List.length_filter_le _ _
    _ = 4 := detect_sections_length _

/-! ### Concrete evaluation at the empty input -/

lemma run_empty_score : (run_full_analysis []).score = 0 := by
  show calculate_weighted_score (detect_sections (cleanText []))
    (extract_skills (cleanText [])) ((pySplit (cleanText [])).length) = 0
  rw [show detect_sections (cleanText []) =
        [("education", false), ("projects", false), ("experience", false), ("skills", false)]
      from by decide,
    show extract_skills (cleanText []) = [] from by decide,
    show (pySplit (cleanText ([] : List Char))).length = 0 from by decide]
  simp only [calculate_weighted_score, SECTIONSYNONYMS_SAFE, SECTION_SYNONYMS]
  norm_num [List.filter]
  exact pythonRound_zero

/-! ### Claim theorems -/

/-- C1: for every section-presence mapping, detected-skill collection and
word count, the scorer returns `round(raw_score)` (Python's builtin
round, i.e. half-to-even on the exact value) where `raw_score` is the
structure component (true count over taxonomy size, times 30) plus the
capped skill component `min(count*5, 50)` plus the formatting component
(20 for 300–800 words, else 10 for a positive count, else 0). -/
theorem c1_scorer_formula (sections : List (String × Bool))
    (skills : List String) (word_count : Nat) :
    calculate_weighted_score sections skills word_count =
      pythonRound
        ((((sections.filter fun s => s.2).length : ℚ) / (SECTION_SYNONYMS.length : ℚ)) * 30
          + min ((skills.length : ℚ) * 5) 50
          + (if 300 ≤ word_count ∧ word_count ≤ 800 then (20 : ℚ)
             else if 0 < word_count then 10 else 0)) := by
  simp only [calculate_weighted_score, SECTIONSYNONYMS_SAFE]
  congr 1
  by_cases hsk : 0 < skills.length
  · rw [if_pos hsk]
    split_ifs <;> ring
  · rw [if_neg hsk]
    have h0 : skills.length = 0 := by omega
    rw [h0, show ((0 : ℕ) : ℚ) * 5 = 0 by norm_num,
      min_eq_left (by norm_num : (0 : ℚ) ≤ 50)]
    split_ifs <;> ring

/-- C2 (counterexample): no input text makes the final score exceed 100,
contrary to the claim that some input does. -/
theorem c2_counterexample :
    ¬ ∃ raw_text : List Char, 100 < (run_full_analysis raw_text).score := by
  rintro ⟨t, ht⟩
  have := score_le_100 t
  omega

/-- C2 (amended): the scoring formula applies no clamping, yet the final
score never exceeds 100 for any input text: its three components are
capped at 30, 50 and 20. -/
theorem c2_amended_soft_ceiling (raw_text : List Char) :
    (run_full_analysis raw_text).score ≤ 100 :=
  score_le_100 raw_text

/-- C5: the analysis of the empty string yields word count 0, no skills,
no sections and score 0, and the engine returns a `"success"` result for
every input with no error state. -/
theorem c5_empty_input :
    (run_full_analysis []).word_count = 0 ∧
    (run_full_analysis []).details.skills_detected = [] ∧
    (run_full_analysis []).details.sections_found = [] ∧
    (run_full_analysis []).score = 0 ∧
    ∀ raw_text : List Char, (run_full_analysis raw_text).status = "success" :=
  ⟨by decide, by decide, by decide, run_empty_score, fun _ => rfl⟩

/-- C7: with sections and word count fixed, one more detected skill never
decreases the skill component `min(count*5, 50)` nor the final score, and
the skill component is capped at 50. -/
theorem c7_skill_monotone (sections : List (String × Bool))
    (skills : List String) (word_count : Nat) (skill : String) :
    min ((skills.length : ℚ) * 5) 50 ≤ min (((skill :: skills).length : ℚ) * 5) 50 ∧
    calculate_weighted_score sections skills word_count ≤
      calculate_weighted_score sections (skill :: skills) word_count ∧
    min ((skills.length : ℚ) * 5) 50 ≤ 50 := by
  have hmin : min ((skills.length : ℚ) * 5) 50 ≤ min (((skill :: skills).length : ℚ) * 5) 50 := by
    apply min_le_min _ le_rfl
    simp only [List.length_cons]
    push_cast
    linarith
  refine ⟨hmin, ?_, min_le_right _ _⟩
  simp only [calculate_weighted_score, SECTIONSYNONYMS_SAFE]
  apply pythonRound_mono
  have hpos : 0 < (skill :: skills).length := by simp
  have h50 : (0 : ℚ) ≤ min (((skill :: skills).length : ℚ) * 5) 50 := by
    apply le_min _ (by norm_num)
    positivity
  by_cases hsk : 0 < skills.length
  · rw [if_pos hsk, if_pos hpos]
    split_ifs <;> linarith
  · rw [if_neg hsk, if_pos hpos]
    have h0 : skills.length = 0 := by omega
    split_ifs <;> linarith

/-- C8: the missing core skills are exactly `CORE_INDUSTRY_SKILLS`
filtered by absence from the detected skills, and hence an
order-preserving subsequence of the core skill list. -/
theorem c8_missing_core (raw_text : List Char) :
    (run_full_analysis raw_text).details.missing_core_skills =
      CORE_INDUSTRY_SKILLS.filter
        (fun s => decide (s ∉ (run_full_analysis raw_text).details.skills_detected)) ∧
    List.Sublist (run_full_analysis raw_text).details.missing_core_skills
      CORE_INDUSTRY_SKILLS :=
  ⟨rfl, List.filter_sublist _⟩

/-- C10: the adapter is a faithful projection of the engine result: each
of its fields copies the corresponding engine field unchanged. -/
theorem c10_adapter (raw_text : List Char) :
    (run_analysis_for_rapt raw_text).score = (run_full_analysis raw_text).score ∧
    (run_analysis_for_rapt raw_text).skills =
      (run_full_analysis raw_text).details.skills_detected ∧
    (run_analysis_for_rapt raw_text).missing_skills =
      (run_full_analysis raw_text).details.missing_core_skills ∧
    (run_analysis_for_rapt raw_text).model_version =
      (run_full_analysis raw_text).engine_version ∧
    (run_analysis_for_rapt raw_text).feedback_json.feedback =
      (run_full_analysis raw_text).feedback ∧
    (run_analysis_for_rapt raw_text).feedback_json.sections_found =
      (run_full_analysis raw_text).details.sections_found ∧
    (run_analysis_for_rapt raw_text).feedback_json.word_count =
      (run_full_analysis raw_text).word_count :=
  ⟨rfl, rfl, rfl, rfl, rfl, rfl, rfl⟩

/-! ### The word-boundary search against the spec's whole-word notion -/

lemma getD_drop (t : List Char) (p i : Nat) (d : Char) :
    (t.drop p).getD i d = t.getD (p + i) d := by
  induction t generalizing p with
  | nil => simp
  | cons c rest ih =>
    cases p with
    | zero => simp
    | succ p =>
      rw [List.drop_succ_cons, ih p, Nat.succ_add]
      simp

lemma occursAt_length {T L : List Char} {p : Nat}
    (hocc : occursAt T L p) (hne : L ≠ []) : p + L.length ≤ T.length := by
  have hlen : ((T.drop p).take L.length).length = L.length := by rw [hocc]
  rw [List.length_take, List.length_drop] at hlen
  have hl : 0 < L.length := List.length_pos.mpr hne
  omega

lemma charAt_of_occursAt {T L : List Char} {p : Nat}
    (hocc : occursAt T L p) {i : Nat} (hi : i < L.length) :
    charAt T (p + i) = charAt L i := by
  have hdec : T.drop p = L ++ T.drop (p + L.length) := by
    conv_lhs => rw [← List.take_append_drop L.length (T.drop p)]
    rw [hocc, List.drop_drop]
  unfold charAt
  rw [← getD_drop, hdec]
  exact List.getD_append _ _ _ _ hi

lemma wordAt_start {T L : List Char} {p : Nat}
    (hocc : occursAt T L p) (hne : L ≠ [])
    (hhead : isWordChar (charAt L 0) = true) : wordAt T p = true := by
  have hl : 0 < L.length := List.length_pos.mpr hne
  have hple := occursAt_length hocc hne
  have h2 : charAt T p = charAt L 0 := by
    simpa using charAt_of_occursAt hocc hl
  unfold wordAt
  rw [h2, hhead]
  simp
  omega

lemma wordAt_last {T L : List Char} {p : Nat}
    (hocc : occursAt T L p) (hne : L ≠ [])
    (hlast : isWordChar (charAt L (L.length - 1)) = true) :
    wordAt T (p + L.length - 1) = true := by
  have hl : 0 < L.length := List.length_pos.mpr hne
  have hple := occursAt_length hocc hne
  have h2 : charAt T (p + L.length - 1) = charAt L (L.length - 1) := by
    rw [show p + L.length - 1 = p + (L.length - 1) by omega]
    exact charAt_of_occursAt hocc (by omega)
  unfold wordAt
  rw [h2, hlast]
  simp
  omega

/-- The regex search `\bL\b` succeeds iff `L` occurs at a position whose
two neighbours are non-word or absent — provided `L` itself starts and
ends with a word character (true of every keyword except `"c++"`). -/
lemma reSearchWW_iff_wholeWord {L T : List Char} (hne : L ≠ [])
    (hhead : isWordChar (charAt L 0) = true)
    (hlast : isWordChar (charAt L (L.length - 1)) = true) :
    reSearchWW L T = true ↔
      ∃ p : Nat, occursAt T L p ∧
        (p = 0 ∨ isWordChar (charAt T (p - 1)) = false) ∧
        (p + L.length = T.length ∨ isWordChar (charAt T (p + L.length)) = false) := by
  have hl : 0 < L.length := List.length_pos.mpr hne
  unfold reSearchWW
  rw [List.any_eq_true]
  constructor
  · rintro ⟨p, hpmem, hb⟩
    obtain ⟨⟨hb1, hlit⟩, hb2⟩ : (boundaryAt T p = true ∧ litAt T p L = true) ∧
        boundaryAt T (p + L.length) = true := by
      simpa [Bool.and_eq_true] using hb
    have hocc : occursAt T L p := by
      unfold litAt at hlit
      exact eq_of_beq hlit
    have hple := occursAt_length hocc hne
    have hwp := wordAt_start hocc hne hhead
    have hwl := wordAt_last hocc hne hlast
    refine ⟨p, hocc, ?_, ?_⟩
    · by_cases hp0 : p = 0
      · exact Or.inl hp0
      · right
        unfold boundaryAt at hb1
        rw [if_neg hp0, hwp] at hb1
        have hv : wordAt T (p - 1) = false := by
          cases hW : wordAt T (p - 1)
          · rfl
          · rw [hW] at hb1
            simp_all
        unfold wordAt at hv
        have hlt : p - 1 < T.length := by omega
        simpa [hlt] using hv
    · unfold boundaryAt at hb2
      rw [if_neg (by omega : ¬(p + L.length = 0)),
        show p + L.length - 1 = p + L.length - 1 from rfl, hwl] at hb2
      have hv : wordAt T (p + L.length) = false := by
        cases hW : wordAt T (p + L.length)
        · rfl
        · rw [hW] at hb2
          simp_all
      by_cases hend : p + L.length = T.length
      · exact Or.inl hend
      · right
        unfold wordAt at hv
        have hlt : p + L.length < T.length := by omega
        simpa [hlt] using hv
  · rintro ⟨p, hocc, hleft, hright⟩
    have hple := occursAt_length hocc hne
    have hwp := wordAt_start hocc hne hhead
    have hwl := wordAt_last hocc hne hlast
    have hlit : litAt T p L = true := by
      unfold litAt
      exact beq_iff_eq.mpr hocc
    have hb1 : boundaryAt T p = true := by
      unfold boundaryAt
      by_cases hp0 : p = 0
      · rw [if_pos hp0, hwp]
        rfl
      · rcases hleft with hc | hnw
        · exact absurd hc hp0
        · rw [if_neg hp0, hwp]
          have : wordAt T (p - 1) = false := by
            unfold wordAt
            rw [hnw]
            simp
          rw [this]
          rfl
    have hb2 : boundaryAt T (p + L.length) = true := by
      unfold boundaryAt
      rw [if_neg (by omega : ¬(p + L.length = 0)), hwl]
      have : wordAt T (p + L.length) = false := by
        unfold wordAt
        rcases hright with hend | hnw
        · simp [hend]
        · rw [hnw]
          simp
      rw [this]
      rfl
    exact ⟨p, List.mem_range.mpr (by omega), by simp [hb1, hb2, hlit]⟩

/-- Membership in the extractor's output for a keyword that is its own
lower-casing and the unique taxonomy keyword with that lower-casing. -/
lemma mem_extract_skills_iff (skill : String) (text : List Char)
    (hmem : skill ∈ allSkillKeywords)
    (hself : strLower skill = skill)
    (huniq : ∀ x ∈ allSkillKeywords, strLower x = skill → x = skill) :
    skill ∈ extract_skills text ↔ skillHit text skill = true := by
  unfold extract_skills
  rw [List.mem_dedup, List.mem_map]
  constructor
  · rintro ⟨x, hx, hxe⟩
    obtain ⟨hxmem, hxhit⟩ := List.mem_filter.mp hx
    rwa [huniq x hxmem hxe] at hxhit
  · intro h
    exact ⟨skill, List.mem_filter.mpr ⟨hmem, h⟩, hself⟩

/-! ### Claim theorems about skill matching -/

/-- C6: a multi-word skill keyword ("machine learning", "spring boot") is
detected exactly when the full phrase occurs with its exact single-space
spacing, case-insensitively, with the non-word/edge condition at the
phrase's start and end only (its internal space is matched literally,
not as a boundary). -/
theorem c6_multiword_phrases (t : List Char) :
    ("machine learning" ∈ extract_skills t ↔
      wholeWordMatch ("machine learning".toList) t) ∧
    ("spring boot" ∈ extract_skills t ↔
      wholeWordMatch ("spring boot".toList) t) := by
  constructor
  · rw [mem_extract_skills_iff "machine learning" t (by decide) (by decide) (by decide)]
    unfold skillHit wholeWordMatch
    rw [show lowerL ("machine learning".toList) = "machine learning".toList from by decide]
    rw [reSearchWW_iff_wholeWord (by decide) (by decide) (by decide)]
    simp only [lowerL, List.length_map]
  · rw [mem_extract_skills_iff "spring boot" t (by decide) (by decide) (by decide)]
    unfold skillHit wholeWordMatch
    rw [show lowerL ("spring boot".toList) = "spring boot".toList from by decide]
    rw [reSearchWW_iff_wholeWord (by decide) (by decide) (by decide)]
    simp only [lowerL, List.length_map]

/-- C3: evaluation at the divergent input.  The keyword `"c++"` occurs in
the text `" c++ "` as a whole word in the spec's sense (bounded by
non-word characters), yet the extractor misses it: the pattern
`\bc\+\+\b` needs a word character right after the final `+`.  For
purely alphanumeric keywords the claimed behaviour does hold, as the
`"javascript"` cases show. -/
theorem c3_cpp_word_boundary :
    "c++" ∉ extract_skills (" c++ ".toList) ∧
    wholeWordMatch ("c++".toList) (" c++ ".toList) ∧
    "javascript" ∉ extract_skills ("typescriptjavascript".toList) ∧
    "javascript" ∈ extract_skills ("javascript".toList) := by
  refine ⟨by decide, ⟨1, by unfold occursAt; decide, by decide, by decide⟩,
    by decide, by decide⟩

/-- C4: the result's detected skills all come from the (lower-cased)
taxonomy keywords, the missing core skills are disjoint from the detected
skills, and the sections found are section-taxonomy keys. -/
theorem c4_result_invariants (raw_text : List Char) :
    (∀ s ∈ (run_full_analysis raw_text).details.skills_detected,
      s ∈ allSkillKeywords.map strLower) ∧
    (∀ s ∈ (run_full_analysis raw_text).details.missing_core_skills,
      s ∉ (run_full_analysis raw_text).details.skills_detected) ∧
    (∀ s ∈ (run_full_analysis raw_text).details.sections_found,
      s ∈ SECTION_SYNONYMS.map Prod.fst) := by
  refine ⟨?_, ?_, ?_⟩
  · intro s hs
    have hs' : s ∈ extract_skills (cleanText raw_text) := hs
    unfold extract_skills at hs'
    rw [List.mem_dedup, List.mem_map] at hs'
    rcases hs' with ⟨x, hx, hxe⟩
    exact hxe ▸ List.mem_map_of_mem strLower (List.mem_filter.mp hx).1
  · intro s hsm
    have hsm' : s ∈ CORE_INDUSTRY_SKILLS.filter
        (fun x => decide (x ∉ extract_skills (cleanText raw_text))) := hsm
    have h2 := (List.mem_filter.mp hsm').2
    intro hmem
    have hmem' : s ∈ extract_skills (cleanText raw_text) := hmem
    simp only [decide_eq_true_eq] at h2
    exact h2 hmem'
  · intro s hss
    have hss' : s ∈ ((detect_sections (cleanText raw_text)).filter
        fun x => x.2).map Prod.fst := hss
    rw [List.mem_map] at hss'
    rcases hss' with ⟨pr, hpr, hpre⟩
    have hpr2 : pr ∈ detect_sections (cleanText raw_text) := (List.mem_filter.mp hpr).1
    unfold detect_sections at hpr2
    rw [List.mem_map] at hpr2
    rcases hpr2 with ⟨entry, hentry, he⟩
    rw [← hpre, ← he]
    exact List.mem_map_of_mem Prod.fst hentry

/-- C4 witness: the invariants applied at concrete inputs — `"python"`
is detected from the text `"python"` and lies in the taxonomy, `"sql"`
is then a missing core skill and indeed undetected, and `"education"`
found from the text `"education"` is a taxonomy key. -/
theorem c4_result_invariants_witness :
    "python" ∈ allSkillKeywords.map strLower ∧
    "sql" ∉ (run_full_analysis ("python".toList)).details.skills_detected ∧
    "education" ∈ SECTION_SYNONYMS.map Prod.fst :=
  ⟨(c4_result_invariants ("python".toList)).1 "python" (by decide),
   (c4_result_invariants ("python".toList)).2.1 "sql" (by decide),
   (c4_result_invariants ("education".toList)).2.2 "education" (by decide)⟩

/-- C9 (counterexample): at the empty input, the improvements list ends
with `"Consider adding core skills: python, react, sql"` — without the
trailing period the claim's quoted message carries. -/
theorem c9_counterexample :
    (run_full_analysis []).feedback.improvements.getLast? =
      some "Consider adding core skills: python, react, sql" ∧
    "Consider adding core skills: python, react, sql" ≠
      "Consider adding core skills: python, react, sql." :=
  ⟨by decide, by decide⟩

/-- C9 (amended): the deterministic feedback rule table, with the
skills-gap message as the source writes it (no trailing period): a score
of 80 or more appends the excellence strength, a score in [50, 80) the
encouragement strength, below 50 none; the improvements are the missing
section messages in taxonomy order followed, when core skills are
missing, by the skills-gap message as the last entry. -/
theorem c9_amended (raw_text : List Char) :
    (80 ≤ (run_full_analysis raw_text).score →
      (run_full_analysis raw_text).feedback.strengths =
        ["Excellent section structure and keyword density."]) ∧
    (50 ≤ (run_full_analysis raw_text).score ∧ (run_full_analysis raw_text).score < 80 →
      (run_full_analysis raw_text).feedback.strengths =
        ["Good start, but needs more specific technical keywords."]) ∧
    ((run_full_analysis raw_text).score < 50 →
      (run_full_analysis raw_text).feedback.strengths = []) ∧
    (run_full_analysis raw_text).feedback.improvements =
      (((detect_sections (cleanText raw_text)).filter fun s => !s.2).map fun s =>
          "Missing '" ++ pyCapitalize s.1 ++ "' section.") ++
        (if (run_full_analysis raw_text).details.missing_core_skills = [] then []
         else ["Consider adding core skills: " ++ String.intercalate ", "
            ((run_full_analysis raw_text).details.missing_core_skills.take 3)]) ∧
    ((run_full_analysis raw_text).details.missing_core_skills ≠ [] →
      (run_full_analysis raw_text).feedback.improvements.getLast? =
        some ("Consider adding core skills: " ++ String.intercalate ", "
          ((run_full_analysis raw_text).details.missing_core_skills.take 3))) := by
  have hstr : (run_full_analysis raw_text).feedback.strengths =
      (if 80 ≤ (run_full_analysis raw_text).score then
        ["Excellent section structure and keyword density."]
       else if 50 ≤ (run_full_analysis raw_text).score then
        ["Good start, but needs more specific technical keywords."]
       else []) := rfl
  have himp : (run_full_analysis raw_text).feedback.improvements =
      (((detect_sections (cleanText raw_text)).filter fun s => !s.2).map fun s =>
          missingSectionMsg s.1) ++
        (if ((run_full_analysis raw_text).details.missing_core_skills).isEmpty then []
         else [coreSkillsMsg (run_full_analysis raw_text).details.missing_core_skills]) := rfl
  refine ⟨?_, ?_, ?_, ?_, ?_⟩
  · intro h
    rw [hstr, if_pos h]
  · intro h
    rw [hstr, if_neg (by omega), if_pos h.1]
  · intro h
    rw [hstr, if_neg (by omega), if_neg (by omega)]
  · rw [himp]
    by_cases hm : (run_full_analysis raw_text).details.missing_core_skills = []
    · simp [hm, missingSectionMsg, coreSkillsMsg, List.isEmpty_iff]
    · simp [hm, missingSectionMsg, coreSkillsMsg, List.isEmpty_iff]
  · intro hne
    rw [himp, show ((run_full_analysis raw_text).details.missing_core_skills).isEmpty = false
        from by simp [List.isEmpty_iff, hne]]
    simp only [Bool.false_eq_true, if_false]
    rw [List.getLast?_concat]
    unfold coreSkillsMsg
    rfl

/-- C9 witness: at the empty input the score is 0 (< 50, so no strength)
and the core-skill gap message closes the improvements list. -/
theorem c9_amended_witness :
    (run_full_analysis []).feedback.strengths = [] ∧
    (run_full_analysis []).feedback.improvements.getLast? =
      some ("Consider adding core skills: " ++ String.intercalate ", "
        ((run_full_analysis []).details.missing_core_skills.take 3)) :=
  ⟨(c9_amended []).2.2.1 (by rw [run_empty_score]; norm_num),
   (c9_amended []).2.2.2.2 (by decide)⟩

end RAPT
